import Mathlib

/-!
Verification development for `src/Visualize_Profile.py` (cogniscent dashboard).

The Python source is shallowly embedded: pure fragments become Lean
functions over `ℚ` (Python floats are idealised as exact rationals, with
overflow to infinity modelled explicitly where it matters), fallible code
returns `Option`/`Except`, and the stateful Streamlit handlers become
explicit state-transition functions.
-/

namespace Cogniscent

/-! ## Python-style rounding

`round(x, d)` in Python rounds half to even.  We model it exactly over `ℚ`;
none of the properties below depends on the tie-breaking mode, since no
rounding input in this development lands exactly on a tie.
-/

/-- Python `round` to an integer: round half to even (banker's rounding). -/
def pyRoundInt (q : ℚ) : ℤ :=
  if q - ⌊q⌋ < 1/2 then ⌊q⌋
  else if 1/2 < q - ⌊q⌋ then ⌊q⌋ + 1
  else if ⌊q⌋ % 2 = 0 then ⌊q⌋ else ⌊q⌋ + 1

/-- Python `round(q, d)`: round to `d` decimal places, half to even. -/
def pyRound (q : ℚ) (d : ℕ) : ℚ :=
  (pyRoundInt (q * (10 : ℚ) ^ d) : ℚ) / (10 : ℚ) ^ d

theorem pyRoundInt_intCast (z : ℤ) : pyRoundInt (z : ℚ) = z := by
  simp [pyRoundInt]

theorem pyRound_int_div_pow (z : ℤ) (d : ℕ) :
    pyRound ((z : ℚ) / (10 : ℚ) ^ d) d = (z : ℚ) / (10 : ℚ) ^ d := by
  have h10 : ((10 : ℚ) ^ d) ≠ 0 := by positivity
  unfold pyRound
  rw [div_mul_cancel₀ _ h10, pyRoundInt_intCast]

theorem pyRound_zero (d : ℕ) : pyRound 0 d = 0 := by
  have h := pyRound_int_div_pow 0 d
  simpa using h

/-- A rational that is already an integer multiple of `10 ^ (-d)` is a fixed
point of `pyRound · d`. -/
theorem pyRound_of_eq_int_div (q : ℚ) (z : ℤ) (d : ℕ)
    (h : q = (z : ℚ) / (10 : ℚ) ^ d) : pyRound q d = q := by
  rw [h, pyRound_int_div_pow]

/-- `pyRound` always produces a rational with denominator dividing `10 ^ d`:
the result times `10 ^ d` is an integer. -/
theorem pyRound_den (q : ℚ) (d : ℕ) : ∃ z : ℤ, pyRound q d = (z : ℚ) / (10 : ℚ) ^ d :=
  ⟨pyRoundInt (q * (10 : ℚ) ^ d), rfl⟩

/-! ## Mood Score Calculator

Source, `main`, lines 143–152:
```
weights = {"dopamine": 0.25, "serotonin": 0.25, "oxytocin": 0.2,
           "GABA": 0.2, "cortisol": -0.15}
nt = profile["neurotransmitters"]
mood_score = sum(nt.get(k, 0) * w for k, w in weights.items())
mood_score = round(max(0, min(1, mood_score)) * 100, 1)
```
A neurotransmitter mapping is embedded as an association list over `ℚ`
(first binding wins, as in a Python dict there is at most one).
-/

/-- `nt.get(k, 0)`: value at key `k`, `0` when the key is missing. -/
def ntGet (nt : List (String × ℚ)) (k : String) : ℚ :=
  ((nt.find? (fun p => p.1 == k)).map Prod.snd).getD 0

theorem ntGet_nil (k : String) : ntGet [] k = 0 := rfl

theorem ntGet_cons (k' : String) (v : ℚ) (rest : List (String × ℚ)) (k : String) :
    ntGet ((k', v) :: rest) k = if k' == k then v else ntGet rest k := by
  by_cases h : k' = k
  · simp [ntGet, List.find?, h]
  · have hb : (k' == k) = false := beq_false_of_ne h
    simp [ntGet, List.find?, hb]

/-- The fixed weight table from the source, in dict iteration order. -/
def weights : List (String × ℚ) :=
  [("dopamine", 25/100), ("serotonin", 25/100), ("oxytocin", 2/10),
   ("GABA", 2/10), ("cortisol", -15/100)]

/-- `sum(nt.get(k, 0) * w for k, w in weights.items())`. -/
def weightedSum (nt : List (String × ℚ)) : ℚ :=
  (weights.map (fun kw => ntGet nt kw.1 * kw.2)).sum

/-- `round(max(0, min(1, mood_score)) * 100, 1)`. -/
def mood_score (nt : List (String × ℚ)) : ℚ :=
  pyRound (max 0 (min 1 (weightedSum nt)) * 100) 1

/-! ## Sentiment Bucketing

Source, `show_sentiment_bar`, lines 97–108: the status string
("Positive 😄"/"Negative 😟"/"Neutral 😐", rendered with a colour) is
modelled by `SentimentBucket`, and `st.progress((score + 1) / 2)` by the
second component of the returned pair.
-/

inductive SentimentBucket where
  | positive
  | negative
  | neutral
  deriving DecidableEq

/-- `show_sentiment_bar`: the bucket chosen by the `if/elif/else` chain and
the value handed to `st.progress`. -/
def show_sentiment_bar (score : ℚ) : SentimentBucket × ℚ :=
  (if score > 3/10 then .positive
   else if score < -(3/10) then .negative
   else .neutral,
   (score + 1) / 2)

theorem show_sentiment_bar_fst (score : ℚ) :
    (show_sentiment_bar score).1 =
      (if score > 3/10 then .positive
       else if score < -(3/10) then .negative
       else .neutral) := rfl

theorem show_sentiment_bar_snd (score : ℚ) :
    (show_sentiment_bar score).2 = (score + 1) / 2 := rfl

/-! ## String helpers

Python's `str.lower`, `str.strip` and `str.split()` (ASCII scope, which is
all the source's fixed keyword lists use), modelled over `String.data` so
that they reduce inside the kernel.
-/

/-- Python `str.lower()` (ASCII): lower-case every character. -/
def strLower (s : String) : String := ⟨s.data.map Char.toLower⟩

/-- Drop leading and trailing whitespace from a character list. -/
def stripChars (l : List Char) : List Char :=
  ((l.dropWhile Char.isWhitespace).reverse.dropWhile Char.isWhitespace).reverse

/-- Python `str.strip()`: remove leading and trailing whitespace. -/
def strStrip (s : String) : String := ⟨stripChars s.data⟩

/-- Python `str.split()` with no argument: split on whitespace runs,
discarding empty pieces. -/
def splitWhitespace (s : String) : List String :=
  ((s.data.splitOnP Char.isWhitespace).map String.mk).filter (fun w => w ≠ "")

/-! ## Circadian/Scent Advisory

Source, `main`, lines 217–231:
```
circadian_window = profile.get("circadian_window", "")
user_scent = profile.get("scent_note", "").lower().strip()
daytime_scents = ["citrus", "mint", "bergamot", "linalool"]
nighttime_scents = ["lavender", "rose", "vanilla", "tonka bean"]
...
if user_scent:
    if circadian_window == "morning" and user_scent in nighttime_scents:
        st.info("🌞 Morning tip: ...")
    elif circadian_window == "evening" and user_scent in daytime_scents:
        st.info("🌙 Evening tip: ...")
```
Note that `circadian_window` here is the raw profile value: the lowercased
copy made at line 171 is shadowed by the re-assignment at line 218, so the
window comparison is case-sensitive, while the scent is lowercased and
stripped.
-/

def daytime_scents : List String := ["citrus", "mint", "bergamot", "linalool"]

def nighttime_scents : List String := ["lavender", "rose", "vanilla", "tonka bean"]

inductive ScentTip where
  | morningEnergize
  | eveningCalm
  deriving DecidableEq

/-- The advisory block: which tip, if any, is emitted for a given raw
circadian-window label and raw favourite-scent text.  The Python binds
`user_scent = scent_note.lower().strip()` once; here the expression
`strStrip (strLower scent_note)` is written out at each use. -/
def circadianAdvisory (circadian_window scent_note : String) : Option ScentTip :=
  if strStrip (strLower scent_note) ≠ "" then
    if circadian_window = "morning" ∧ strStrip (strLower scent_note) ∈ nighttime_scents then
      some .morningEnergize
    else if circadian_window = "evening" ∧ strStrip (strLower scent_note) ∈ daytime_scents then
      some .eveningCalm
    else none
  else none

/-! ## Claim C1 -/

/-- C1: for every neurotransmitter mapping, the mood score equals the weighted
sum of the values at keys dopamine (0.25), serotonin (0.25), oxytocin (0.20),
GABA (0.20) and cortisol (-0.15), a missing key contributing 0, clamped to
[0,1], multiplied by 100 and rounded to one decimal; the function is
deterministic (same input always yields the same output); any weighted sum
below 0 yields 0.0 and any weighted sum above 1 yields 100.0. -/
theorem claim_C1_mood_score (nt : List (String × ℚ)) :
    mood_score nt =
      pyRound (max 0 (min 1
        (25/100 * ntGet nt "dopamine" + 25/100 * ntGet nt "serotonin"
          + 20/100 * ntGet nt "oxytocin" + 20/100 * ntGet nt "GABA"
          + (-(15/100)) * ntGet nt "cortisol")) * 100) 1
    ∧ (∀ nt', nt = nt' → mood_score nt = mood_score nt')
    ∧ (weightedSum nt < 0 → mood_score nt = 0)
    ∧ (1 < weightedSum nt → mood_score nt = 100) := by
  refine ⟨?_, fun nt' h => by rw [h], ?_, ?_⟩
  · unfold mood_score weightedSum weights
    simp only [List.map_cons, List.map_nil, List.sum_cons, List.sum_nil]
    ring_nf
  · intro hneg
    have hmin : min 1 (weightedSum nt) = weightedSum nt := by
      apply min_eq_right; linarith
    have hmax : max 0 (min 1 (weightedSum nt)) = 0 := by
      rw [hmin]; exact max_eq_left (le_of_lt hneg)
    unfold mood_score
    rw [hmax, zero_mul, pyRound_zero]
  · intro hgt
    have hmin : min 1 (weightedSum nt) = 1 := min_eq_left (le_of_lt hgt)
    unfold mood_score
    rw [hmin, max_eq_right zero_le_one, one_mul]
    have h : (100 : ℚ) = ((1000 : ℤ) : ℚ) / (10 : ℚ) ^ 1 := by norm_num
    rw [h, pyRound_int_div_pow]

/-- Witness for C1 at concrete inputs: a mapping with weighted sum 5/4 above 1
scores 100, one with weighted sum below 0 scores 0, and the all-boosters-0.8,
cortisol-0.2 example has weighted sum 0.69 and scores 69.0.  (The spec's §8
arithmetic for this example says 0.74/74.0, but 0.2+0.2+0.16+0.16-0.03 = 0.69;
that worked example is not part of claim C1.) -/
theorem claim_C1_mood_score_witness :
    mood_score [("dopamine", 5)] = 100
    ∧ mood_score [("cortisol", 1)] = 0
    ∧ mood_score [("dopamine", 8/10), ("serotonin", 8/10), ("oxytocin", 8/10),
        ("GABA", 8/10), ("cortisol", 2/10)] = 69 := by
  refine ⟨(claim_C1_mood_score _).2.2.2 ?_, (claim_C1_mood_score _).2.2.1 ?_, ?_⟩
  · simp only [weightedSum, weights, List.map_cons, List.map_nil, List.sum_cons,
      List.sum_nil, ntGet_cons, ntGet_nil, String.reduceBEq, ite_true, ite_false]
    norm_num
  · simp only [weightedSum, weights, List.map_cons, List.map_nil, List.sum_cons,
      List.sum_nil, ntGet_cons, ntGet_nil, String.reduceBEq, ite_true, ite_false]
    norm_num
  · rw [(claim_C1_mood_score _).1]
    simp only [ntGet_cons, ntGet_nil, String.reduceBEq, ite_true, ite_false]
    norm_num [min_def, max_def]
    exact pyRound_of_eq_int_div 69 690 1 (by norm_num)

/-! ## Claim C9 -/

/-- C9: for every numeric sentiment score, the bucket is positive exactly when
the score exceeds 0.3, negative exactly when it is below -0.3, and neutral
otherwise, and the visual progress indicator equals (score+1)/2 with no
clamping, so out-of-range inputs produce an out-of-range indicator value. -/
theorem claim_C9_sentiment (score : ℚ) :
    ((show_sentiment_bar score).1 = .positive ↔ 3/10 < score)
    ∧ ((show_sentiment_bar score).1 = .negative ↔ score < -(3/10))
    ∧ ((show_sentiment_bar score).1 = .neutral ↔ -(3/10) ≤ score ∧ score ≤ 3/10)
    ∧ (show_sentiment_bar score).2 = (score + 1) / 2
    ∧ (1 < score → 1 < (show_sentiment_bar score).2)
    ∧ (score < -1 → (show_sentiment_bar score).2 < 0) := by
  simp only [show_sentiment_bar_fst, show_sentiment_bar_snd]
  split_ifs with h1 h2
  · exact ⟨by simp [h1], by simp; linarith, by simp; intro h; linarith, trivial,
      fun h => by linarith, fun h => by linarith⟩
  · exact ⟨by simp; linarith, by simp [h2], by simp; intro h; linarith, trivial,
      fun h => by linarith, fun h => by linarith⟩
  · push_neg at h1 h2
    exact ⟨by simp; linarith, by simp; linarith, by simp; constructor <;> linarith,
      trivial, fun h => by linarith, fun h => by linarith⟩

/-- Witness for C9: a score of 2 (outside [-1,1]) yields an indicator of 3/2,
itself outside [0,1]; a score of -2 yields an indicator below 0. -/
theorem claim_C9_sentiment_witness :
    (1 < (show_sentiment_bar 2).2) ∧ ((show_sentiment_bar (-2)).2 < 0) :=
  ⟨(claim_C9_sentiment 2).2.2.2.2.1 (by norm_num),
   (claim_C9_sentiment (-2)).2.2.2.2.2 (by norm_num)⟩

/-! ## Claim C3 -/

/-- C3 counterexample: the window comparison is case-sensitive.  With the
window label "Morning" (equal to "morning" up to case) and the chosen scent
"lavender" (in the nighttime set), the claim demands an energizing tip, but
`circadianAdvisory` emits none. -/
theorem claim_C3_counterexample :
    circadianAdvisory "Morning" "lavender" = none
    ∧ strLower "Morning" = "morning"
    ∧ "lavender" ∈ nighttime_scents := by
  refine ⟨?_, by decide, by decide⟩
  decide

/-- C3 amended: the advisory is case- and whitespace-insensitive on the scent
but case-sensitive on the window: an energizing tip is emitted exactly when
the window is the exact string "morning" and the lowercased, stripped scent is
in the nighttime set; a calming tip exactly when the window is exactly
"evening" and the lowercased, stripped scent is in the daytime set; in every
other case (including windows differing only in case, such as "Morning") no
advisory is emitted. -/
theorem claim_C3_advisory (w s : String) :
    (circadianAdvisory w s = some .morningEnergize ↔
      w = "morning" ∧ strStrip (strLower s) ∈ nighttime_scents)
    ∧ (circadianAdvisory w s = some .eveningCalm ↔
      w = "evening" ∧ strStrip (strLower s) ∈ daytime_scents)
    ∧ (circadianAdvisory w s = none ↔
      ¬(w = "morning" ∧ strStrip (strLower s) ∈ nighttime_scents)
      ∧ ¬(w = "evening" ∧ strStrip (strLower s) ∈ daytime_scents)) := by
  have hn : strStrip (strLower s) ∈ nighttime_scents → strStrip (strLower s) ≠ "" := by
    intro h he
    rw [he] at h
    revert h
    decide
  have hd : strStrip (strLower s) ∈ daytime_scents → strStrip (strLower s) ≠ "" := by
    intro h he
    rw [he] at h
    revert h
    decide
  unfold circadianAdvisory
  by_cases he : strStrip (strLower s) = ""
  · rw [if_neg (by simp [he])]
    refine ⟨?_, ?_, ?_⟩
    · exact ⟨fun habs => by simp at habs, fun ⟨_, hmem⟩ => absurd he (hn hmem)⟩
    · exact ⟨fun habs => by simp at habs, fun ⟨_, hmem⟩ => absurd he (hd hmem)⟩
    · exact ⟨fun _ => ⟨fun hm => hn hm.2 he, fun hm => hd hm.2 he⟩, fun _ => rfl⟩
  · rw [if_pos he]
    split_ifs with h1 h2
    · refine ⟨⟨fun _ => h1, fun _ => rfl⟩, ?_, ?_⟩
      · refine ⟨fun habs => by simp at habs, fun hm => ?_⟩
        exact absurd (h1.1.symm.trans hm.1) (by decide)
      · exact ⟨fun habs => by simp at habs, fun hno => absurd h1 hno.1⟩
    · refine ⟨?_, ⟨fun _ => h2, fun _ => rfl⟩, ?_⟩
      · exact ⟨fun habs => by simp at habs, fun hm => absurd hm h1⟩
      · exact ⟨fun habs => by simp at habs, fun hno => absurd h2 hno.2⟩
    · exact ⟨⟨fun habs => by simp at habs, fun hm => absurd hm h1⟩,
        ⟨fun habs => by simp at habs, fun hm => absurd hm h2⟩,
        fun _ => ⟨h1, h2⟩, fun _ => rfl⟩

/-! ## Reflection mood scoring and the session mood ledger

Source, `main`, lines 334–347 (run on each successful reflection):
```
mood_keywords = mood.lower().split()
pos = ["happy", "hopeful", "excited", "motivated"]
neg = ["anxious", "sad", "tired", "overwhelmed"]
score = sum(1 for w in mood_keywords if w in pos) - sum(1 for w in mood_keywords if w in neg)
normalized = round((score + 3) / 6, 2)
st.session_state["emotion_timeline"].append(normalized)
...
st.session_state["feedback_log"].append(feedback)
```
-/

def pos : List String := ["happy", "hopeful", "excited", "motivated"]

def neg : List String := ["anxious", "sad", "tired", "overwhelmed"]

/-- `mood.lower().split()`. -/
def mood_keywords (mood : String) : List String := splitWhitespace (strLower mood)

/-- The integer keyword score: positive occurrences minus negative ones. -/
def score (mood : String) : ℤ :=
  ((mood_keywords mood).countP (fun w => pos.contains w) : ℤ)
    - ((mood_keywords mood).countP (fun w => neg.contains w) : ℤ)

/-- `normalized = round((score + 3) / 6, 2)`. -/
def normalized (mood : String) : ℚ := pyRound ((score mood + 3) / 6) 2

/-- Session state of the reflection tab: the two parallel ledger lists. -/
structure RefState where
  emotion_timeline : List ℚ
  feedback_log : List ℕ
  deriving DecidableEq

/-- One successful reflection submission: append the normalized mood score to
`emotion_timeline` and the slider rating to `feedback_log`. -/
def recordReflection (st : RefState) (mood : String) (feedback : ℕ) : RefState :=
  { emotion_timeline := st.emotion_timeline ++ [normalized mood],
    feedback_log := st.feedback_log ++ [feedback] }

/-- A sequence of successful reflection submissions, oldest first. -/
def runReflections (st : RefState) (subs : List (String × ℕ)) : RefState :=
  subs.foldl (fun s p => recordReflection s p.1 p.2) st

theorem runReflections_spec (st : RefState) (subs : List (String × ℕ)) :
    runReflections st subs =
      ⟨st.emotion_timeline ++ subs.map (fun p => normalized p.1),
       st.feedback_log ++ subs.map (fun p => p.2)⟩ := by
  induction subs generalizing st with
  | nil => simp [runReflections]
  | cons hd tl ih =>
      have hstep : runReflections st (hd :: tl)
          = runReflections (recordReflection st hd.1 hd.2) tl := rfl
      rw [hstep, ih]
      simp [recordReflection]

/-! ## Claim C10 -/

/-- C10: for every free-text mood string, the recorded normalized mood score
equals round((p - n + 3) / 6, 2), where p is the number of
whitespace-separated lowercased words of the string occurring in
{happy, hopeful, excited, motivated} and n the number occurring in
{anxious, sad, tired, overwhelmed}, counting repeated words each time they
occur. -/
theorem claim_C10_normalized (mood : String) :
    normalized mood =
      pyRound (((((splitWhitespace (strLower mood)).filter
            (fun w => w ∈ ["happy", "hopeful", "excited", "motivated"])).length : ℤ)
        - (((splitWhitespace (strLower mood)).filter
            (fun w => w ∈ ["anxious", "sad", "tired", "overwhelmed"])).length : ℤ)
        + 3) / 6) 2 := by
  have h1 : (mood_keywords mood).countP (fun w => pos.contains w)
      = ((splitWhitespace (strLower mood)).filter
          (fun w => w ∈ ["happy", "hopeful", "excited", "motivated"])).length := by
    rw [List.countP_eq_length_filter]
    unfold mood_keywords pos
    congr 1
    apply List.filter_congr
    intro a _
    simp [List.contains, List.elem_eq_mem]
  have h2 : (mood_keywords mood).countP (fun w => neg.contains w)
      = ((splitWhitespace (strLower mood)).filter
          (fun w => w ∈ ["anxious", "sad", "tired", "overwhelmed"])).length := by
    rw [List.countP_eq_length_filter]
    unfold mood_keywords neg
    congr 1
    apply List.filter_congr
    intro a _
    simp [List.contains, List.elem_eq_mem]
  unfold normalized score
  rw [h1, h2]
  push_cast
  ring_nf

/-! ## Claim C4 -/

/-- C4 counterexample: a single successful reflection with mood text
"sad sad sad sad" (keyword score -4) records the normalized mood score
round((-4+3)/6, 2) = -0.17, which is not in [0,1], refuting the claim that
every recorded entry has a normalized score in [0,1]. -/
theorem claim_C4_counterexample :
    (runReflections ⟨[], []⟩ [("sad sad sad sad", 3)]).emotion_timeline = [-(17/100)]
    ∧ ((-(17/100) : ℚ) < 0) := by
  constructor
  · have hs : score "sad sad sad sad" = -4 := by decide
    have hnorm : normalized "sad sad sad sad" = -(17/100) := by
      unfold normalized
      rw [hs]
      norm_num [pyRound, pyRoundInt]
    simp [runReflections, recordReflection, hnorm]
  · norm_num

/-- C4 amended: after every sequence of N successful reflection submissions in
a session, the mood ledger holds exactly N entries, its scores and ratings
sequences have equal length, every rating is in {0..5} (the slider's range),
and every recorded score equals the keyword score round((p-n+3)/6, 2) of its
submission's mood text, which lies in [0,1] only when the positive and
negative keyword counts differ by at most 3 and can fall outside [0,1]
otherwise. -/
theorem claim_C4_ledger (subs : List (String × ℕ)) (h5 : ∀ p ∈ subs, p.2 ≤ 5) :
    (runReflections ⟨[], []⟩ subs).emotion_timeline.length = subs.length
    ∧ (runReflections ⟨[], []⟩ subs).feedback_log.length =
        (runReflections ⟨[], []⟩ subs).emotion_timeline.length
    ∧ (∀ f ∈ (runReflections ⟨[], []⟩ subs).feedback_log, f ≤ 5)
    ∧ (runReflections ⟨[], []⟩ subs).emotion_timeline
        = subs.map (fun p => normalized p.1) := by
  rw [runReflections_spec]
  refine ⟨by simp, by simp, ?_, by simp⟩
  intro f hf
  simp only [List.nil_append, List.mem_map] at hf
  obtain ⟨p, hp, he⟩ := hf
  exact he ▸ h5 p hp

/-- Witness for C4 amended, at the two-submission session
[("happy", 5), ("sad", 0)]. -/
theorem claim_C4_ledger_witness :
    (runReflections ⟨[], []⟩ [("happy", 5), ("sad", 0)]).emotion_timeline.length
      = [("happy", 5), ("sad", 0)].length
    ∧ ∀ f ∈ (runReflections ⟨[], []⟩ [("happy", 5), ("sad", 0)]).feedback_log, f ≤ 5 :=
  ⟨(claim_C4_ledger _ (by decide)).1, (claim_C4_ledger _ (by decide)).2.2.1⟩

/-! ## Mood summary analytics

Source, `main`, lines 367–370:
```
scores = np.array(st.session_state["emotion_timeline"])
volatility = round(np.std(scores), 2)
avg_score = round(np.mean(scores), 2)
trend = "📈 Improving" if scores[-1] > scores[0] else "📉 Declining"
```
`np.std` is the population standard deviation: the square root of the mean
of squared deviations.  The indexing `scores[-1]`/`scores[0]` presumes a
non-empty timeline (guaranteed here: the summary renders only right after an
append); `headD`/`getLastD` with default 0 agree with it on non-empty lists.
-/

/-- `np.mean(scores)`. -/
def npMean (l : List ℚ) : ℚ := l.sum / l.length

/-- Population variance, `np.var`: the mean of the squared deviations. -/
def npVariance (l : List ℚ) : ℚ :=
  ((l.map (fun x => (x - npMean l) ^ 2)).sum) / l.length

/-- Real-valued Python rounding to an integer (half to even), for the
irrational standard deviation. -/
noncomputable def pyRoundIntR (x : ℝ) : ℤ :=
  if x - ⌊x⌋ < 1/2 then ⌊x⌋
  else if 1/2 < x - ⌊x⌋ then ⌊x⌋ + 1
  else if ⌊x⌋ % 2 = 0 then ⌊x⌋ else ⌊x⌋ + 1

/-- Real-valued Python `round(x, d)`. -/
noncomputable def pyRoundR (x : ℝ) (d : ℕ) : ℝ :=
  (pyRoundIntR (x * (10 : ℝ) ^ d) : ℝ) / (10 : ℝ) ^ d

/-- `avg_score = round(np.mean(scores), 2)`. -/
def avg_score (l : List ℚ) : ℚ := pyRound (npMean l) 2

/-- `volatility = round(np.std(scores), 2)`. -/
noncomputable def volatility (l : List ℚ) : ℝ :=
  pyRoundR (Real.sqrt (npVariance l)) 2

inductive Trend where
  | improving
  | declining
  deriving DecidableEq

/-- `trend = "Improving" if scores[-1] > scores[0] else "Declining"`. -/
def trend (l : List ℚ) : Trend :=
  if l.getLastD 0 > l.headD 0 then .improving else .declining

/-! ## Claim C7 -/

/-- C7 counterexample: the summary reports the mean rounded to two decimals,
not the arithmetic mean itself.  For the reachable ledger
[0.17, 0.17, 0.33] (moods "sad sad", "sad sad", "sad") the arithmetic mean is
67/300 = 0.22333..., but the reported average is 0.22. -/
theorem claim_C7_counterexample :
    avg_score [17/100, 17/100, 33/100] ≠ npMean [17/100, 17/100, 33/100]
    ∧ avg_score [17/100, 17/100, 33/100] = 22/100
    ∧ npMean [17/100, 17/100, 33/100] = 67/300 := by
  have h1 : npMean [17/100, 17/100, 33/100] = 67/300 := by
    norm_num [npMean, List.sum_cons, List.sum_nil]
  have h2 : avg_score [17/100, 17/100, 33/100] = 22/100 := by
    unfold avg_score
    rw [h1]
    norm_num [pyRound, pyRoundInt]
  refine ⟨?_, h2, h1⟩
  rw [h2, h1]
  norm_num

/-- C7 amended: for every non-empty mood ledger, the summary returns the
arithmetic mean of the scores rounded to two decimals, the population
standard deviation of the scores rounded to two decimals, and trend
improving exactly when the most recent score is strictly greater than the
first recorded score, otherwise declining (ties resolve to declining). -/
theorem claim_C7_summary (l : List ℚ) (_h : l ≠ []) :
    avg_score l = pyRound (l.sum / l.length) 2
    ∧ volatility l
        = pyRoundR (Real.sqrt ((((l.map (fun x => (x - l.sum / l.length) ^ 2)).sum
            / l.length : ℚ) : ℝ))) 2
    ∧ (trend l = .improving ↔ l.headD 0 < l.getLastD 0)
    ∧ (trend l = .declining ↔ l.getLastD 0 ≤ l.headD 0) := by
  refine ⟨rfl, rfl, ?_, ?_⟩
  · unfold trend
    split_ifs with hc
    · exact ⟨fun _ => hc, fun _ => rfl⟩
    · simp only [gt_iff_lt, not_lt] at hc
      constructor
      · intro habs
        exact absurd habs (by simp)
      · intro hlt
        exact absurd hlt (not_lt.mpr hc)
  · unfold trend
    split_ifs with hc
    · constructor
      · intro habs
        exact absurd habs (by simp)
      · intro hle
        exact absurd hc (not_lt.mpr hle)
    · simp only [gt_iff_lt, not_lt] at hc
      exact ⟨fun _ => hc, fun _ => rfl⟩

/-- Witness for C7 at the ledger [0.2, 0.5, 0.8]: the reported average is the
rounded mean and the trend is improving (0.8 greater than 0.2). -/
theorem claim_C7_summary_witness :
    avg_score [2/10, 5/10, 8/10]
      = pyRound ([(2 : ℚ)/10, 5/10, 8/10].sum / ([(2 : ℚ)/10, 5/10, 8/10].length)) 2
    ∧ trend [2/10, 5/10, 8/10] = .improving := by
  constructor
  · exact (claim_C7_summary [2/10, 5/10, 8/10] (by simp)).1
  · apply (claim_C7_summary [2/10, 5/10, 8/10] (by simp)).2.2.1.mpr
    simp [List.getLastD, List.headD]
    norm_num

/-! ## Python values and `float()` conversion

Source, `sanitize_neuro`, lines 11–18:
```
def sanitize_neuro(nt_dict):
    clean_nt = {}
    for k, v in nt_dict.items():
        try:
            clean_nt[k] = float(v)
        except (ValueError, TypeError):
            clean_nt[k] = 0.5
    return clean_nt
```
Python values are embedded as `PyVal`; `float` results as `PyFloat`, keeping
finite values exact as rationals (binary rounding of representable values is
not modelled) while infinities, NaN and overflow are modelled explicitly.
`float(v)` follows CPython: floats pass through unchanged (including `inf`
and `nan`), booleans become 0.0/1.0, integers convert unless their magnitude
reaches the IEEE-double overflow bound (then `OverflowError`, which the
`except (ValueError, TypeError)` clause does not catch), strings are parsed
(optional sign, `inf`/`infinity`/`nan` keywords, decimal mantissa with
optional exponent; overflowing literals become infinities, as in `strtod`),
and every other type raises `TypeError`.
-/

inductive PyFloat where
  | finite (q : ℚ)
  | inf
  | neginf
  | nan
  deriving DecidableEq

inductive PyVal where
  | vfloat (f : PyFloat)
  | vint (n : ℤ)
  | vbool (b : Bool)
  | vstr (s : String)
  | vnone
  | vlist (elems : List PyVal)

inductive PyExc where
  | valueError
  | typeError
  | overflowError
  deriving DecidableEq

/-- Fold decimal digit characters into a natural number. -/
def digitsToNat (l : List Char) : ℕ :=
  l.foldl (fun a c => 10 * a + (c.toNat - 48)) 0

/-- Consume an optional leading sign; `true` means negative. -/
def parseSign : List Char → Bool × List Char
  | '+' :: r => (false, r)
  | '-' :: r => (true, r)
  | l => (false, l)

/-- Parse an unsigned float body: digits, optional point and fraction digits,
optional exponent.  `none` models `ValueError`. -/
def parseFloatBody (l : List Char) : Option ℚ :=
  let ip := l.takeWhile Char.isDigit
  let r1 := l.dropWhile Char.isDigit
  let fp := match r1 with
    | '.' :: r => r.takeWhile Char.isDigit
    | _ => []
  let r2 := match r1 with
    | '.' :: r => r.dropWhile Char.isDigit
    | _ => r1
  if ip = [] ∧ fp = [] then none
  else
    match r2 with
    | [] => some ((digitsToNat ip : ℚ) + (digitsToNat fp : ℚ) / (10 : ℚ) ^ fp.length)
    | e :: r3 =>
      if e = 'e' ∨ e = 'E' then
        let en := (parseSign r3).1
        let r4 := (parseSign r3).2
        let ed := r4.takeWhile Char.isDigit
        let r5 := r4.dropWhile Char.isDigit
        if ed = [] ∨ r5 ≠ [] then none
        else
          some (((digitsToNat ip : ℚ) + (digitsToNat fp : ℚ) / (10 : ℚ) ^ fp.length)
            * (10 : ℚ) ^ (if en then -(digitsToNat ed : ℤ) else (digitsToNat ed : ℤ)))
      else none

/-- The smallest positive rational that IEEE round-half-even sends to 2^1024,
the canonical double-overflow threshold. -/
def doubleOverflowBound : ℚ := 2 ^ 1024 - 2 ^ 970

def overflowsDouble (q : ℚ) : Bool := decide (doubleOverflowBound ≤ |q|)

/-- Python `float(s)` on a string: strip whitespace, lower-case, then accept
sign + (`inf` | `infinity` | `nan` | decimal literal). -/
def pyFloatOfString (s : String) : Option PyFloat :=
  let t := (stripChars s.data).map Char.toLower
  let sgn := (parseSign t).1
  let body := (parseSign t).2
  if body = ['i', 'n', 'f'] ∨ body = ['i', 'n', 'f', 'i', 'n', 'i', 't', 'y'] then
    some (if sgn then .neginf else .inf)
  else if body = ['n', 'a', 'n'] then some .nan
  else
    match parseFloatBody body with
    | none => none
    | some q =>
        if overflowsDouble q then some (if sgn then .neginf else .inf)
        else some (.finite (if sgn then -q else q))

/-- Python `float(v)`. -/
def toFloat : PyVal → Except PyExc PyFloat
  | .vfloat f => .ok f
  | .vint n => if overflowsDouble n then .error .overflowError else .ok (.finite n)
  | .vbool b => .ok (.finite (if b then 1 else 0))
  | .vstr s =>
      match pyFloatOfString s with
      | some f => .ok f
      | none => .error .valueError
  | .vnone => .error .typeError
  | .vlist _ => .error .typeError

/-- `sanitize_neuro`: convert each value with `float`, replace `ValueError`
and `TypeError` failures by 0.5, and let any other exception propagate. -/
def sanitize_neuro : List (String × PyVal) → Except PyExc (List (String × PyFloat))
  | [] => .ok []
  | (k, v) :: rest =>
      match toFloat v with
      | .ok f => (sanitize_neuro rest).map (fun r => (k, f) :: r)
      | .error .valueError => (sanitize_neuro rest).map (fun r => (k, .finite (1/2)) :: r)
      | .error .typeError => (sanitize_neuro rest).map (fun r => (k, .finite (1/2)) :: r)
      | .error e => .error e

theorem sanitize_neuro_cons (k : String) (v : PyVal) (rest : List (String × PyVal)) :
    sanitize_neuro ((k, v) :: rest) =
      match toFloat v with
      | .ok f => (sanitize_neuro rest).map (fun r => (k, f) :: r)
      | .error .valueError => (sanitize_neuro rest).map (fun r => (k, .finite (1/2)) :: r)
      | .error .typeError => (sanitize_neuro rest).map (fun r => (k, .finite (1/2)) :: r)
      | .error e => .error e := rfl

/-- Whether a `PyFloat` is a finite float. -/
def PyFloat.isFinite : PyFloat → Bool
  | .finite _ => true
  | _ => false

/-- The value relation realised by `sanitize_neuro` for each key: successful
conversions are kept, `ValueError`/`TypeError` become 0.5, and no other
outcome yields an entry. -/
def sanitizedValue (v : PyVal) (f : PyFloat) : Prop :=
  match toFloat v with
  | .ok g => f = g
  | .error .valueError => f = .finite (1/2)
  | .error .typeError => f = .finite (1/2)
  | .error _ => False

/-- Per-entry relation between an input item and its sanitized output item. -/
def entryRel (kv : String × PyVal) (kf : String × PyFloat) : Prop :=
  kf.1 = kv.1 ∧ sanitizedValue kv.2 kf.2

theorem sanitize_map_case (k : String) (v : PyVal) (tl : List (String × PyVal))
    (g : PyFloat)
    (hcons : sanitize_neuro ((k, v) :: tl)
      = (sanitize_neuro tl).map (fun r => (k, g) :: r))
    (hval : sanitizedValue v g)
    (ihOk : ∀ out, sanitize_neuro tl = .ok out →
      out.map Prod.fst = tl.map Prod.fst ∧ List.Forall₂ entryRel tl out)
    (ihErr : ∀ e, sanitize_neuro tl = .error e → e = .overflowError) :
    (∀ out, sanitize_neuro ((k, v) :: tl) = .ok out →
      out.map Prod.fst = ((k, v) :: tl).map Prod.fst
      ∧ List.Forall₂ entryRel ((k, v) :: tl) out)
    ∧ (∀ e, sanitize_neuro ((k, v) :: tl) = .error e → e = .overflowError) := by
  cases hsr : sanitize_neuro tl with
  | ok r =>
      have hok : sanitize_neuro ((k, v) :: tl) = .ok ((k, g) :: r) := by
        rw [hcons, hsr]
        rfl
      refine ⟨fun out hout => ?_, fun e he => ?_⟩
      · rw [hok] at hout
        injection hout with h
        subst h
        exact ⟨by simp [(ihOk r hsr).1], List.Forall₂.cons ⟨rfl, hval⟩ (ihOk r hsr).2⟩
      · rw [hok] at he
        exact absurd he (by simp)
  | error e' =>
      have herr : sanitize_neuro ((k, v) :: tl) = .error e' := by
        rw [hcons, hsr]
        rfl
      refine ⟨fun out hout => ?_, fun e he => ?_⟩
      · rw [herr] at hout
        exact absurd hout (by simp)
      · rw [herr] at he
        injection he with h
        exact h ▸ ihErr e' hsr

/-! ## Claim C2 -/

/-- C2 counterexample: a value that is already the float `inf` converts
successfully, so `sanitize_neuro` keeps it and the output value is not a
finite float, refuting "every value is a finite float". -/
theorem claim_C2_counterexample :
    sanitize_neuro [("a", .vfloat .inf)] = .ok [("a", .inf)]
    ∧ PyFloat.isFinite .inf = false :=
  ⟨rfl, rfl⟩

/-- C2 amended: for every input mapping, when `sanitize_neuro` returns it
returns a mapping with exactly the same keys in which every value is a float
related to its input value as the code computes it: values converting
successfully are kept, including non-finite results such as `inf` or `nan`
(so outputs need not be finite), and values failing with `ValueError` or
`TypeError` become exactly 0.5; the only way the function can raise is the
uncaught `OverflowError` from an integer too large for a float. -/
theorem claim_C2_sanitize (m : List (String × PyVal)) :
    (∀ out, sanitize_neuro m = .ok out →
      out.map Prod.fst = m.map Prod.fst
      ∧ List.Forall₂ entryRel m out)
    ∧ (∀ e, sanitize_neuro m = .error e → e = .overflowError) := by
  induction m with
  | nil =>
      refine ⟨fun out hout => ?_, fun e he => ?_⟩
      · simp only [sanitize_neuro] at hout
        injection hout with h
        subst h
        exact ⟨rfl, List.Forall₂.nil⟩
      · simp [sanitize_neuro] at he
  | cons hd tl ih =>
      obtain ⟨k, v⟩ := hd
      cases htf : toFloat v with
      | ok f =>
          refine sanitize_map_case k v tl f ?_ ?_ ih.1 ih.2
          · rw [sanitize_neuro_cons, htf]
          · simp [sanitizedValue, htf]
      | error exc =>
          cases exc with
          | valueError =>
              refine sanitize_map_case k v tl (.finite (1/2)) ?_ ?_ ih.1 ih.2
              · rw [sanitize_neuro_cons, htf]
              · simp [sanitizedValue, htf]
          | typeError =>
              refine sanitize_map_case k v tl (.finite (1/2)) ?_ ?_ ih.1 ih.2
              · rw [sanitize_neuro_cons, htf]
              · simp [sanitizedValue, htf]
          | overflowError =>
              have herr : sanitize_neuro ((k, v) :: tl) = .error .overflowError := by
                rw [sanitize_neuro_cons, htf]
              refine ⟨fun out hout => ?_, fun e he => ?_⟩
              · rw [herr] at hout
                exact absurd hout (by simp)
              · rw [herr] at he
                injection he with h
                exact h.symm

/-- Witness for C2 amended at the spec's example input: sanitizing the
mapping with the non-numeric string "x" at key dopamine yields the same key
with value exactly 0.5. -/
theorem claim_C2_sanitize_witness :
    [("dopamine", PyFloat.finite (1/2))].map Prod.fst
      = [("dopamine", PyVal.vstr "x")].map Prod.fst
    ∧ List.Forall₂ entryRel [("dopamine", PyVal.vstr "x")]
        [("dopamine", PyFloat.finite (1/2))] :=
  (claim_C2_sanitize [("dopamine", PyVal.vstr "x")]).1
    [("dopamine", PyFloat.finite (1/2))] rfl

/-! ## Fuzzy game lookup

Source, `find_game_entry`, lines 185–194:
```
def find_game_entry(name):
    try:
        game_name = name.lower().strip()
        for g in game_profiles:
            if g["name"].lower() == game_name:
                return g
        matches = get_close_matches(game_name, [g["name"].lower() for g in game_profiles], n=1)
        return next((g for g in game_profiles if g["name"].lower() == matches[0]), None) if matches else None
    except:
        return None
```
`difflib.get_close_matches` is modelled after CPython: candidates are kept
when their `SequenceMatcher.ratio()` against the query is at least the
default cutoff 0.6 (the `quick_ratio` pre-checks are upper bounds of
`ratio`, so they do not change the accepted set), and `heapq.nlargest`
picks the largest `(ratio, word)` pair in lexicographic tuple order,
earliest first among fully equal pairs.  `ratio` is `2*M/T` where `M`
totals the sizes of the matching blocks found by the recursive
longest-matching-block decomposition and `T` is the combined length.
Junk/autojunk handling is omitted (no junk argument is passed and autojunk
only affects second sequences of 200+ characters, in which regime this model
is not claimed faithful); without junk the post-search extension loops in
`find_longest_match` cannot fire.
-/

/-- Indices `j` of occurrences of `c` in `b` with `blo ≤ j < bhi`, ascending:
`b2j.get(a[i], [])` restricted as by the `continue`/`break` tests. -/
def jIndices (b : List Char) (c : Char) (blo bhi : ℕ) : List ℕ :=
  (List.range b.length).filter
    (fun j => decide (blo ≤ j) && decide (j < bhi) && (b.getD j ' ' == c))

/-- One iteration (index `i` of the first sequence) of the
`find_longest_match` dynamic program.  The state is the `j2len` table
(as a function, 0 meaning absent) and the best `(i, j, size)` so far. -/
def flmStep (a b : List Char) (blo bhi : ℕ)
    (st : (ℕ → ℕ) × ℕ × ℕ × ℕ) (i : ℕ) : (ℕ → ℕ) × ℕ × ℕ × ℕ :=
  let j2len := st.1
  (jIndices b (a.getD i ' ') blo bhi).foldl
    (fun acc j =>
      let k := (if j = 0 then 0 else j2len (j - 1)) + 1
      let nj : ℕ → ℕ := fun x => if x = j then k else acc.1 x
      if acc.2.2.2 < k then (nj, i + 1 - k, j + 1 - k, k)
      else (nj, acc.2))
    ((fun _ => 0), st.2)

/-- `SequenceMatcher.find_longest_match(alo, ahi, blo, bhi)` (no junk). -/
def findLongestMatch (a b : List Char) (alo ahi blo bhi : ℕ) : ℕ × ℕ × ℕ :=
  ((List.range' alo (ahi - alo)).foldl (flmStep a b blo bhi)
    ((fun _ => 0), alo, blo, 0)).2

/-- Total size of all matching blocks of `a[alo:ahi]` vs `b[blo:bhi]`: the
recursive decomposition of `get_matching_blocks`, fuelled (the fuel exceeds
the recursion depth, which is bounded by the total interval length). -/
def totalMatchedAux (a b : List Char) : ℕ → ℕ → ℕ → ℕ → ℕ → ℕ
  | 0, _, _, _, _ => 0
  | fuel + 1, alo, ahi, blo, bhi =>
      let m := findLongestMatch a b alo ahi blo bhi
      if m.2.2 = 0 then 0
      else m.2.2 + totalMatchedAux a b fuel alo m.1 blo m.2.1
        + totalMatchedAux a b fuel (m.1 + m.2.2) ahi (m.2.1 + m.2.2) bhi

/-- `SequenceMatcher(None, a, b).ratio()`: `2*M/T`, and 1.0 when both
sequences are empty. -/
def ratioOf (a b : List Char) : ℚ :=
  if a.length + b.length = 0 then 1
  else 2 * (totalMatchedAux a b (a.length + b.length + 1) 0 a.length 0 b.length : ℚ)
    / ((a.length : ℚ) + (b.length : ℚ))

/-- Python string comparison (lexicographic on code points), as used by
tuple comparison inside `heapq.nlargest`. -/
def lexLt : List Char → List Char → Bool
  | [], [] => false
  | [], _ :: _ => true
  | _ :: _, [] => false
  | a :: as, b :: bs => if a < b then true else if b < a then false else lexLt as bs

/-- Strict tuple order `(score, word)` used by `nlargest` on score pairs. -/
def tupleGt (q best : ℚ × List Char) : Prop :=
  best.1 < q.1 ∨ (q.1 = best.1 ∧ lexLt best.2 q.2 = true)

instance (q best : ℚ × List Char) : Decidable (tupleGt q best) := by
  unfold tupleGt
  infer_instance

/-- `heapq.nlargest(1, result)`: the greatest element in tuple order,
earliest among fully equal pairs; `none` on the empty list. -/
def nlargest1 : List (ℚ × List Char) → Option (ℚ × List Char)
  | [] => none
  | p :: rest => some (rest.foldl (fun best q => if tupleGt q best then q else best) p)

/-- `difflib.get_close_matches(word, possibilities, n=1, cutoff)`, returning
the single best match if any candidate reaches the cutoff. -/
def get_close_matches1 (word : List Char) (possibilities : List (List Char))
    (cutoff : ℚ) : Option (List Char) :=
  (nlargest1 (possibilities.filterMap
    (fun x => if cutoff ≤ ratioOf x word then some (ratioOf x word, x) else none))).map
    Prod.snd

/-- A static game-profile record (from `game_profiles.json`). -/
structure GameEntry where
  name : String
  psychological_effects : List String
  tags : List String
  brain_region_activation : List String
  challenge_level : String
  scent_affinity : List (String × ℚ)
  deriving DecidableEq

/-- `find_game_entry`.  A `none` query models a non-string recommendation
(`name.lower()` would raise and the bare `except` returns `None`). -/
def find_game_entry (name : Option String) (game_profiles : List GameEntry) :
    Option GameEntry :=
  match name with
  | none => none
  | some nm =>
      match game_profiles.find? (fun g => strLower g.name == strStrip (strLower nm)) with
      | some g => some g
      | none =>
          match get_close_matches1 (strStrip (strLower nm)).data
              (game_profiles.map (fun g => (strLower g.name).data)) (3/5) with
          | some m => game_profiles.find? (fun g => (strLower g.name).data == m)
          | none => none

theorem foldl_best_spec (rest : List (ℚ × List Char)) (p : ℚ × List Char) :
    (rest.foldl (fun best q => if tupleGt q best then q else best) p = p
      ∨ rest.foldl (fun best q => if tupleGt q best then q else best) p ∈ rest)
    ∧ p.1 ≤ (rest.foldl (fun best q => if tupleGt q best then q else best) p).1
    ∧ ∀ x ∈ rest, x.1 ≤ (rest.foldl (fun best q => if tupleGt q best then q else best) p).1 := by
  induction rest generalizing p with
  | nil => exact ⟨.inl rfl, le_refl _, by simp⟩
  | cons q rest ih =>
      have hstep : (q :: rest).foldl (fun best q => if tupleGt q best then q else best) p
          = rest.foldl (fun best q => if tupleGt q best then q else best)
              (if tupleGt q p then q else p) := rfl
      obtain ⟨hmem, hle, hall⟩ := ih (if tupleGt q p then q else p)
      have hpstep : p.1 ≤ (if tupleGt q p then q else p).1 := by
        split_ifs with hg
        · rcases hg with hlt | ⟨heq, _⟩
          · exact le_of_lt hlt
          · exact le_of_eq heq.symm
        · exact le_refl _
      have hqstep : q.1 ≤ (if tupleGt q p then q else p).1 := by
        split_ifs with hg
        · exact le_refl _
        · unfold tupleGt at hg
          push_neg at hg
          exact hg.1
      refine ⟨?_, ?_, ?_⟩
      · rw [hstep]
        rcases hmem with he | hm
        · rw [he]
          split_ifs with hg
          · exact .inr (List.mem_cons_self q rest)
          · exact .inl rfl
        · exact .inr (List.mem_cons_of_mem q hm)
      · rw [hstep]
        exact le_trans hpstep hle
      · rw [hstep]
        intro x hx
        rcases List.mem_cons.mp hx with rfl | hm
        · exact le_trans hqstep hle
        · exact hall x hm

theorem nlargest1_none (l : List (ℚ × List Char)) :
    nlargest1 l = none ↔ l = [] := by
  cases l <;> simp [nlargest1]

theorem nlargest1_spec (l : List (ℚ × List Char)) (p : ℚ × List Char)
    (h : nlargest1 l = some p) : p ∈ l ∧ ∀ x ∈ l, x.1 ≤ p.1 := by
  cases l with
  | nil => exact absurd h (by simp [nlargest1])
  | cons hd rest =>
      unfold nlargest1 at h
      injection h with h
      obtain ⟨hmem, hle, hall⟩ := foldl_best_spec rest hd
      rw [h] at hmem hle hall
      refine ⟨?_, ?_⟩
      · rcases hmem with he | hm
        · rw [he]
          exact List.mem_cons_self hd rest
        · exact List.mem_cons_of_mem hd hm
      · intro x hx
        rcases List.mem_cons.mp hx with rfl | hm
        · exact hle
        · exact hall x hm

theorem get_close_matches1_none (word : List Char) (poss : List (List Char))
    (cutoff : ℚ) :
    get_close_matches1 word poss cutoff = none
      ↔ ∀ x ∈ poss, ratioOf x word < cutoff := by
  unfold get_close_matches1
  rw [Option.map_eq_none', nlargest1_none, List.filterMap_eq_nil_iff]
  constructor
  · intro h x hx
    have := h x hx
    by_contra hge
    rw [if_pos (not_lt.mp hge)] at this
    exact absurd this (by simp)
  · intro h x hx
    rw [if_neg (not_le.mpr (h x hx))]

theorem get_close_matches1_some (word : List Char) (poss : List (List Char))
    (cutoff : ℚ) (m : List Char)
    (h : get_close_matches1 word poss cutoff = some m) :
    m ∈ poss ∧ cutoff ≤ ratioOf m word
      ∧ ∀ x ∈ poss, ratioOf x word ≤ ratioOf m word := by
  unfold get_close_matches1 at h
  obtain ⟨p, hp, hpm⟩ := Option.map_eq_some'.mp h
  obtain ⟨hpmem, hmax⟩ := nlargest1_spec _ _ hp
  obtain ⟨x, hx, hxf⟩ := List.mem_filterMap.mp hpmem
  by_cases hc : cutoff ≤ ratioOf x word
  · rw [if_pos hc] at hxf
    injection hxf with hxf
    have hx1 : p.1 = ratioOf x word := by rw [← hxf]
    have hx2 : p.2 = x := by rw [← hxf]
    subst hpm
    rw [hx2]
    refine ⟨hx, hc, ?_⟩
    intro y hy
    by_cases hyc : cutoff ≤ ratioOf y word
    · have hymem : (ratioOf y word, y) ∈ poss.filterMap
          (fun x => if cutoff ≤ ratioOf x word then some (ratioOf x word, x) else none) :=
        List.mem_filterMap.mpr ⟨y, hy, by rw [if_pos hyc]⟩
      have hley := hmax _ hymem
      rw [hx1] at hley
      exact hley
    · exact le_trans (le_of_lt (not_le.mp hyc)) hc
  · rw [if_neg hc] at hxf
    exact absurd hxf (by simp)

/-- A sample static game entry for concrete instances. -/
def mcEntry : GameEntry :=
  { name := "Minecraft", psychological_effects := ["creativity"],
    tags := ["dopamine"], brain_region_activation := ["prefrontal_cortex"],
    challenge_level := "moderate", scent_affinity := [] }

/-! ## Claim C6 -/

/-- C6 counterexample: difflib's default similarity cutoff of 0.6 is
enforced.  For the query "xyz" against the non-empty reference list
containing only "Minecraft" there is no case-insensitive exact match, so the
claim demands the single closest match by string similarity (here
necessarily the Minecraft entry), yet the lookup returns no entry because
the similarity ratio is 0, below the cutoff. -/
theorem claim_C6_counterexample :
    find_game_entry (some "xyz") [mcEntry] = none
    ∧ ([mcEntry] : List GameEntry) ≠ []
    ∧ (∀ g ∈ [mcEntry], strLower g.name ≠ strStrip (strLower "xyz")) := by
  refine ⟨?_, by simp, by decide⟩
  have h4 : ratioOf "minecraft".data "xyz".data = 0 := by
    unfold ratioOf
    rw [show ("minecraft".data.length) = 9 from by decide,
        show ("xyz".data.length) = 3 from by decide]
    norm_num [show totalMatchedAux "minecraft".data "xyz".data (9 + 3 + 1) 0 9 0 3 = 0
      from by decide]
  have h5 : get_close_matches1 "xyz".data ["minecraft".data] (3/5) = none := by
    rw [get_close_matches1_none]
    intro x hx
    rcases List.mem_singleton.mp hx with rfl
    rw [h4]
    norm_num
  have h1 : strStrip (strLower "xyz") = "xyz" := by decide
  have h2 : List.find? (fun g => strLower g.name == "xyz") [mcEntry] = none := by decide
  have h3 : ([mcEntry].map (fun g => (strLower g.name).data)) = ["minecraft".data] := by
    decide
  simp only [find_game_entry, h1]
  rw [h2, h3, h5]

/-- C6 amended: the lookup never raises and returns only entries of the
reference list; a case-insensitive exact match (of the stripped, lowercased
query) always wins; a non-string query or an empty reference list yields no
entry; when no exact match exists, candidates are compared by difflib
similarity ratio and the single best match is resolved, but only if its
ratio reaches the default cutoff 0.6 — if every candidate's ratio is below
0.6 the lookup returns no entry even though a closest match exists. -/
theorem claim_C6_lookup :
    (∀ l, find_game_entry none l = none)
    ∧ (∀ q, find_game_entry (some q) [] = none)
    ∧ (∀ q l g, l.find? (fun gg => strLower gg.name == strStrip (strLower q)) = some g →
        find_game_entry (some q) l = some g)
    ∧ (∀ q l, find_game_entry (some q) l = none
        ∨ ∃ g ∈ l, find_game_entry (some q) l = some g)
    ∧ (∀ q l, l.find? (fun gg => strLower gg.name == strStrip (strLower q)) = none →
        (∀ x ∈ l.map (fun gg => (strLower gg.name).data),
          ratioOf x (strStrip (strLower q)).data < 3/5) →
        find_game_entry (some q) l = none)
    ∧ (∀ q l m, l.find? (fun gg => strLower gg.name == strStrip (strLower q)) = none →
        get_close_matches1 (strStrip (strLower q)).data
          (l.map (fun gg => (strLower gg.name).data)) (3/5) = some m →
        m ∈ l.map (fun gg => (strLower gg.name).data)
        ∧ 3/5 ≤ ratioOf m (strStrip (strLower q)).data
        ∧ (∀ x ∈ l.map (fun gg => (strLower gg.name).data),
            ratioOf x (strStrip (strLower q)).data
              ≤ ratioOf m (strStrip (strLower q)).data)
        ∧ find_game_entry (some q) l
            = l.find? (fun gg => (strLower gg.name).data == m)) := by
  refine ⟨fun l => rfl, fun q => rfl, ?_, ?_, ?_, ?_⟩
  · intro q l g h
    simp [find_game_entry, h]
  · intro q l
    cases hf : l.find? (fun gg => strLower gg.name == strStrip (strLower q)) with
    | some g =>
        refine .inr ⟨g, List.mem_of_find?_eq_some hf, ?_⟩
        simp [find_game_entry, hf]
    | none =>
        cases hm : get_close_matches1 (strStrip (strLower q)).data
            (l.map (fun gg => (strLower gg.name).data)) (3/5) with
        | none => exact .inl (by simp [find_game_entry, hf, hm])
        | some m =>
            cases hf2 : l.find? (fun gg => (strLower gg.name).data == m) with
            | none => exact .inl (by simp [find_game_entry, hf, hm, hf2])
            | some g =>
                exact .inr ⟨g, List.mem_of_find?_eq_some hf2,
                  by simp [find_game_entry, hf, hm, hf2]⟩
  · intro q l hf hall
    have hm : get_close_matches1 (strStrip (strLower q)).data
        (l.map (fun gg => (strLower gg.name).data)) (3/5) = none :=
      (get_close_matches1_none _ _ _).mpr hall
    simp [find_game_entry, hf, hm]
  · intro q l m hf hm
    obtain ⟨hmem, hcut, hmax⟩ := get_close_matches1_some _ _ _ _ hm
    exact ⟨hmem, hcut, hmax, by simp [find_game_entry, hf, hm]⟩

/-- Witness for C6 amended: the query "  MineCraft " exact-matches the
Minecraft entry case-insensitively after stripping, and a lookup against an
empty reference list returns no entry. -/
theorem claim_C6_lookup_witness :
    find_game_entry (some "  MineCraft ") [mcEntry] = some mcEntry
    ∧ find_game_entry (some "anything") [] = none :=
  ⟨claim_C6_lookup.2.2.1 "  MineCraft " [mcEntry] mcEntry (by decide),
   claim_C6_lookup.2.1 "anything"⟩

/-! ## Profile generation: session state and failure handling

Source, `main`, lines 79–280.  The submission handler checks the HTTP status
(line 82), decodes the JSON body (line 87), rejects a `status:"error"` body
(line 88) and a body missing `neurotransmitters` (line 91) — all before any
session-state write, returning with the previous state intact.  But the
commit `st.session_state["profile"] = profile` happens at line 96, and
lines 116–119 write `twin_data`, `name`, `circadian_window` and
`circadian_note`, *before* the remaining processing, which can raise:
`st.progress((sentiment+1)/2)` at lines 113–114 raises for values outside
[0,1], and the required subscripts `profile["brain_regions"]` (line 140),
`profile["subvectors"]` (line 176), `profile['xbox_game']`,
`profile['game_mode']`, `profile['duration_minutes']`,
`profile['switch_time']` (lines 180–182), `profile['spotify_playlist']`
(line 213) and `profile['scent_reinforcement']` (line 216) raise `KeyError`
when missing.  Any such exception is caught by the `except` at line 279 and
only an error message is shown — the partially committed state stays.
Optional reads via `.get` (sentiments, circadian fields, `match_reason`,
`memory_scent_profile`, `lowest_region`, `scent_note`) cannot raise and the
neurotransmitter values are numeric in this model, so the mood-score sum
(lines 143–152) cannot raise either.  Lines 274–277 re-assign the same
values and change nothing.
-/

/-- A decoded `/generate` response body.  `none` fields are absent keys. -/
structure ProfileResp where
  status : Option String
  neurotransmitters : Option (List (String × ℚ))
  brain_regions : Option (List (String × ℚ))
  goals_sentiment : Option ℚ
  stressors_sentiment : Option ℚ
  cognitive_focus : Option String
  circadian_window : Option String
  circadian_note : Option (List String)
  subvectors : Option (List (String × String))
  xbox_game : Option String
  game_mode : Option String
  duration_minutes : Option ℚ
  switch_time : Option String
  match_reason : Option String
  spotify_playlist : Option String
  scent_reinforcement : Option String
  scent_note : Option String
  lowest_region : Option String
  deriving DecidableEq


/-- The session state touched by the generate tab. -/
structure SessionState where
  profile : Option ProfileResp
  twin_data : Option ProfileResp
  name : Option String
  circadian_window : Option String
  circadian_note : Option (List String)
  deriving DecidableEq

inductive GenOutcome where
  | apiError
  | serverError
  | missingNeuro
  | exceptionCaught
  | success
  deriving DecidableEq

/-- The generate-submission handler as a state transition, taking the
response's status code and its optional decoded body; a `none` body models a
body that is not valid JSON (`res.json()` raises, caught at line 279 with no
state written). -/
def genSubmit (prev : SessionState) (userName : String) (status_code : ℕ) :
    Option ProfileResp → SessionState × GenOutcome
  | none =>
      if status_code ≠ 200 then (prev, .apiError) else (prev, .exceptionCaught)
  | some profile =>
      if status_code ≠ 200 then (prev, .apiError)
      else if profile.status = some "error" then (prev, .serverError)
      else if profile.neurotransmitters = none then (prev, .missingNeuro)
      else
        let s1 : SessionState := { prev with profile := some profile }
        if ¬(0 ≤ (profile.goals_sentiment.getD 0 + 1) / 2
              ∧ (profile.goals_sentiment.getD 0 + 1) / 2 ≤ 1) then
          (s1, .exceptionCaught)
        else if ¬(0 ≤ (profile.stressors_sentiment.getD 0 + 1) / 2
              ∧ (profile.stressors_sentiment.getD 0 + 1) / 2 ≤ 1) then
          (s1, .exceptionCaught)
        else
          let s2 : SessionState := { s1 with
            twin_data := some profile,
            name := some userName,
            circadian_window := some (profile.circadian_window.getD ""),
            circadian_note := some (profile.circadian_note.getD []) }
          if profile.brain_regions = none then (s2, .exceptionCaught)
          else if profile.subvectors = none then (s2, .exceptionCaught)
          else if profile.xbox_game = none then (s2, .exceptionCaught)
          else if profile.game_mode = none then (s2, .exceptionCaught)
          else if profile.duration_minutes = none then (s2, .exceptionCaught)
          else if profile.switch_time = none then (s2, .exceptionCaught)
          else if profile.spotify_playlist = none then (s2, .exceptionCaught)
          else if profile.scent_reinforcement = none then (s2, .exceptionCaught)
          else (s2, .success)

/-- A response body with every key absent. -/
def blankProfile : ProfileResp :=
  { status := none, neurotransmitters := none, brain_regions := none,
    goals_sentiment := none, stressors_sentiment := none,
    cognitive_focus := none, circadian_window := none, circadian_note := none,
    subvectors := none, xbox_game := none, game_mode := none,
    duration_minutes := none, switch_time := none, match_reason := none,
    spotify_playlist := none, scent_reinforcement := none, scent_note := none,
    lowest_region := none }

/-- A session state holding the profile of a previous successful submission. -/
def prevC5 : SessionState :=
  { profile := some blankProfile, twin_data := some blankProfile,
    name := some "Ana", circadian_window := some "morning",
    circadian_note := some [] }

/-- A 200 response passing all three validation guards (it carries
neurotransmitters) but missing `brain_regions`, so processing raises after
the commit. -/
def badProfile : ProfileResp :=
  { blankProfile with neurotransmitters := some [("dopamine", 1/2)] }


/-! ## Claim C5 -/

/-- C5 counterexample: a 200 response whose body passes the three guards but
lacks `brain_regions` fails with an exception during processing, yet the
session profile already holds the failed submission's body instead of the
previous successful one — partial state is committed by a failed
submission. -/
theorem claim_C5_counterexample :
    (genSubmit prevC5 "Ana" 200 (some badProfile)).2 = .exceptionCaught
    ∧ (genSubmit prevC5 "Ana" 200 (some badProfile)).1.profile = some badProfile
    ∧ some badProfile ≠ prevC5.profile := by
  have hgen : genSubmit prevC5 "Ana" 200 (some badProfile) =
      (({ profile := some badProfile, twin_data := some badProfile,
          name := some "Ana", circadian_window := some "",
          circadian_note := some [] } : SessionState), .exceptionCaught) := by
    unfold genSubmit prevC5
    norm_num [badProfile, blankProfile]
    simp
  refine ⟨by rw [hgen], by rw [hgen], ?_⟩
  simp only [prevC5, ne_eq, Option.some.injEq]
  intro h
  have := congrArg ProfileResp.neurotransmitters h
  simp [badProfile, blankProfile] at this

set_option maxHeartbeats 1000000 in
/-- C5 amended: failures detected before any commit — a non-200 response, an
undecodable body, a `status:"error"` body, or a missing `neurotransmitters`
key — leave the session state of the previous successful submission
unchanged; but once those guards pass, the profile is committed immediately,
so a submission that then fails with an exception during processing leaves
the failed submission's profile (and possibly twin data, name and circadian
fields) in the session state. -/
theorem claim_C5_gen (prev : SessionState) (un : String) (sc : ℕ)
    (body : Option ProfileResp) :
    (sc ≠ 200 → genSubmit prev un sc body = (prev, .apiError))
    ∧ (sc = 200 → body = none →
        genSubmit prev un sc body = (prev, .exceptionCaught))
    ∧ (∀ p, sc = 200 → body = some p →
        p.status = some "error" → genSubmit prev un sc body = (prev, .serverError))
    ∧ (∀ p, sc = 200 → body = some p →
        p.status ≠ some "error" → p.neurotransmitters = none →
        genSubmit prev un sc body = (prev, .missingNeuro))
    ∧ (∀ p, sc = 200 → body = some p →
        p.status ≠ some "error" → p.neurotransmitters ≠ none →
        (genSubmit prev un sc body).1.profile = some p) := by
  refine ⟨?_, ?_, ?_, ?_, ?_⟩
  · intro h
    cases body <;> simp [genSubmit, h]
  · intro h200 hb
    subst h200
    subst hb
    simp [genSubmit]
  · intro p h200 hb hst
    subst h200
    subst hb
    simp [genSubmit, hst]
  · intro p h200 hb hst hnt
    subst h200
    subst hb
    simp [genSubmit, hst, hnt]
  · intro p h200 hb hst hnt
    subst h200
    subst hb
    simp only [genSubmit]
    rw [if_neg (by norm_num), if_neg hst, if_neg hnt]
    split_ifs <;> rfl

/-- Witness for C5 amended: a 500 response leaves the previous state
untouched, and the guard-passing response of the counterexample scenario
always commits its profile. -/
theorem claim_C5_gen_witness :
    genSubmit prevC5 "Ana" 500 none = (prevC5, .apiError)
    ∧ (genSubmit prevC5 "Ana" 200 (some badProfile)).1.profile = some badProfile :=
  ⟨(claim_C5_gen prevC5 "Ana" 500 none).1 (by decide),
   (claim_C5_gen prevC5 "Ana" 200 (some badProfile)).2.2.2.2 badProfile rfl rfl
     (by decide) (by decide)⟩

/-! ## CSV export of the mood ledger

Source, `main`, lines 349–365:
```
df_log = pd.DataFrame({
    "Timestamp": pd.date_range(end=pd.Timestamp.now(), periods=len(...), freq="T"),
    "Mood Score": st.session_state["emotion_timeline"],
    "Feedback": st.session_state["feedback_log"],
    "Circadian Window": [st.session_state.get("circadian_window", "")] * len(...)
})
...
df_log.to_csv(buffer, index=False)
```
The CSV text is modelled over `List Char`: a header line followed by one
comma-joined line per row, lines joined by newlines.  Timestamps
(`pd.date_range` output) are taken as given separator-free strings; float
formatting is modelled as shortest-form decimal (what pandas emits for the
two-decimal scores at hand); pandas' quoting of separator-containing fields
is not modelled, so the round-trip statement hypothesises separator-free
text fields, which the date/window values in scope satisfy.
-/

/-- Split a character list at every occurrence of `sep` (like
`str.split(sep)`: `n` separators yield `n+1` pieces, possibly empty). -/
def sepSplit (sep : Char) : List Char → List (List Char)
  | [] => [[]]
  | c :: cs =>
      match sepSplit sep cs with
      | [] => [[]]
      | f :: r => if c = sep then [] :: f :: r else (c :: f) :: r

/-- Join pieces with `sep` (like `sep.join(...)`). -/
def sepJoin (sep : Char) : List (List Char) → List Char
  | [] => []
  | [f] => f
  | f :: g :: r => f ++ sep :: sepJoin sep (g :: r)

theorem sepSplit_ne_nil (sep : Char) (l : List Char) : sepSplit sep l ≠ [] := by
  cases l with
  | nil => simp [sepSplit]
  | cons c cs =>
      simp only [sepSplit]
      cases sepSplit sep cs with
      | nil => simp
      | cons f r =>
          split_ifs <;> simp

theorem sepSplit_no_sep (sep : Char) (l : List Char) (h : sep ∉ l) :
    sepSplit sep l = [l] := by
  induction l with
  | nil => rfl
  | cons c cs ih =>
      have hc : c ≠ sep := fun he => h (he ▸ List.mem_cons_self c cs)
      have hcs : sepSplit sep cs = [cs] := ih (fun hm => h (List.mem_cons_of_mem c hm))
      simp [sepSplit, hcs, hc]

theorem sepSplit_append (sep : Char) (a rest : List Char) (h : sep ∉ a) :
    sepSplit sep (a ++ sep :: rest) = a :: sepSplit sep rest := by
  induction a with
  | nil =>
      cases hq : sepSplit sep rest with
      | nil => exact absurd hq (sepSplit_ne_nil sep rest)
      | cons f r => simp [sepSplit, hq]
  | cons c a ih =>
      have hc : c ≠ sep := fun he => h (he ▸ List.mem_cons_self c a)
      have ha : sep ∉ a := fun hm => h (List.mem_cons_of_mem c hm)
      simp [sepSplit, ih ha, hc]

theorem sepSplit_join (sep : Char) (fields : List (List Char))
    (hne : fields ≠ []) (h : ∀ f ∈ fields, sep ∉ f) :
    sepSplit sep (sepJoin sep fields) = fields := by
  induction fields with
  | nil => exact absurd rfl hne
  | cons f rest ih =>
      cases rest with
      | nil =>
          simp only [sepJoin]
          exact sepSplit_no_sep sep f (h f (List.mem_cons_self f []))
      | cons g r =>
          simp only [sepJoin]
          rw [sepSplit_append sep f (sepJoin sep (g :: r))
            (h f (List.mem_cons_self f (g :: r)))]
          rw [ih (by simp) (fun x hx => h x (List.mem_cons_of_mem f hx))]

/-- Decimal rendering of a natural number, `str(n)`. -/
def natToChars (n : ℕ) : List Char :=
  if n = 0 then ['0']
  else (Nat.digits 10 n).reverse.map (fun d => Char.ofNat (48 + d))

theorem digit_char_props (d : ℕ) (h : d < 10) :
    (Char.ofNat (48 + d)).toNat = 48 + d
    ∧ (Char.ofNat (48 + d)).isDigit = true := by
  interval_cases d <;> exact ⟨rfl, rfl⟩

theorem digitsToNat_rev_map (L : List ℕ) (h : ∀ d ∈ L, d < 10) :
    digitsToNat (L.reverse.map (fun d => Char.ofNat (48 + d))) = Nat.ofDigits 10 L := by
  induction L with
  | nil => simp [digitsToNat, Nat.ofDigits_nil]
  | cons d L ih =>
      rw [List.reverse_cons, List.map_append]
      unfold digitsToNat
      rw [List.foldl_append]
      simp only [List.map_cons, List.map_nil, List.foldl_cons, List.foldl_nil]
      have hd := (digit_char_props d (h d (List.mem_cons_self d L))).1
      rw [hd]
      have ihh := ih (fun x hx => h x (List.mem_cons_of_mem d hx))
      unfold digitsToNat at ihh
      rw [ihh, Nat.ofDigits_cons]
      omega

theorem digitsToNat_natToChars (n : ℕ) : digitsToNat (natToChars n) = n := by
  unfold natToChars
  split_ifs with h
  · subst h
    decide
  · rw [digitsToNat_rev_map _ (fun d hd => Nat.digits_lt_base (by norm_num) hd)]
    exact_mod_cast Nat.ofDigits_digits 10 n

theorem natToChars_all_digit (n : ℕ) : ∀ c ∈ natToChars n, c.isDigit = true := by
  intro c hc
  unfold natToChars at hc
  split_ifs at hc with h
  · rcases List.mem_singleton.mp hc with rfl
    rfl
  · obtain ⟨d, hd, rfl⟩ := List.mem_map.mp hc
    have hdm : d ∈ Nat.digits 10 n := List.mem_reverse.mp hd
    exact (digit_char_props d (Nat.digits_lt_base (by norm_num) hdm)).2

theorem natToChars_ne_nil (n : ℕ) : natToChars n ≠ [] := by
  unfold natToChars
  split_ifs with h
  · simp
  · simp [Nat.digits_ne_nil_iff_ne_zero.mpr h]

/-- A rational number is a two-decimal value when multiplying by 100 clears
its denominator (all recorded mood scores are of this form). -/
def isTwoDec (q : ℚ) : Prop := (q * 100).den = 1

/-- The fractional part (two decimal digits, as pandas/repr shortest form:
trailing zero dropped, `0` when the fraction vanishes). -/
def fracChars (fr : ℕ) : List Char :=
  if fr = 0 then ['0']
  else if fr % 10 = 0 then [Char.ofNat (48 + fr / 10)]
  else [Char.ofNat (48 + fr / 10), Char.ofNat (48 + fr % 10)]

/-- Decimal rendering of a two-decimal rational, as pandas writes the score
column. -/
def ratToChars (q : ℚ) : List Char :=
  (if (q * 100).num < 0 then ['-'] else [])
    ++ natToChars ((q * 100).num.natAbs / 100)
    ++ '.' :: fracChars ((q * 100).num.natAbs % 100)

theorem fracChars_all_digit (fr : ℕ) (h : fr < 100) :
    ∀ c ∈ fracChars fr, c.isDigit = true := by
  intro c hc
  unfold fracChars at hc
  split_ifs at hc with h0 h10
  · rcases List.mem_singleton.mp hc with rfl
    rfl
  · rcases List.mem_singleton.mp hc with rfl
    exact (digit_char_props _ (by omega)).2
  · rcases List.mem_cons.mp hc with rfl | hc2
    · exact (digit_char_props _ (by omega)).2
    · rcases List.mem_singleton.mp hc2 with rfl
      exact (digit_char_props _ (by omega)).2

theorem fracChars_ne_nil (fr : ℕ) : fracChars fr ≠ [] := by
  unfold fracChars
  split_ifs <;> simp

/-- The decimal-string value of `fracChars fr`, scaled by its length, is
`fr / 100`. -/
theorem fracChars_value (fr : ℕ) (h : fr < 100) :
    (digitsToNat (fracChars fr) : ℚ) / (10 : ℚ) ^ (fracChars fr).length
      = (fr : ℚ) / 100 := by
  unfold fracChars
  split_ifs with h0 h10
  · subst h0
    have hz : digitsToNat ['0'] = 0 := by decide
    rw [hz]
    norm_num
  · have hlt : fr / 10 < 10 := by omega
    have hval : digitsToNat [Char.ofNat (48 + fr / 10)] = fr / 10 := by
      unfold digitsToNat
      simp only [List.foldl_cons, List.foldl_nil]
      rw [(digit_char_props _ hlt).1]
      omega
    rw [hval, List.length_singleton]
    have hfrq : (fr : ℚ) = 10 * ((fr / 10 : ℕ) : ℚ) := by
      exact_mod_cast (show fr = 10 * (fr / 10) by omega)
    rw [hfrq]
    ring
  · have hlt1 : fr / 10 < 10 := by omega
    have hlt2 : fr % 10 < 10 := by omega
    have hval : digitsToNat [Char.ofNat (48 + fr / 10), Char.ofNat (48 + fr % 10)]
        = fr := by
      unfold digitsToNat
      simp only [List.foldl_cons, List.foldl_nil]
      rw [(digit_char_props _ hlt1).1, (digit_char_props _ hlt2).1]
      omega
    rw [hval]
    norm_num

/-- Parse an unsigned decimal with mandatory point, `digits.digits`. -/
def charsToRatPos (l : List Char) : Option ℚ :=
  match sepSplit '.' l with
  | [ip, fr] =>
      if ip ≠ [] ∧ fr ≠ [] ∧ ip.all Char.isDigit ∧ fr.all Char.isDigit then
        some ((digitsToNat ip : ℚ) + (digitsToNat fr : ℚ) / (10 : ℚ) ^ fr.length)
      else none
  | _ => none

/-- Parse a CSV float field: optional leading minus then an unsigned
decimal. -/
def charsToRat : List Char → Option ℚ
  | '-' :: rest => (charsToRatPos rest).map (fun x => -x)
  | l => charsToRatPos l

theorem isDigit_ne_dot {c : Char} (h : c.isDigit = true) : c ≠ '.' := by
  intro he
  subst he
  exact absurd h (by decide)

theorem isDigit_ne_comma {c : Char} (h : c.isDigit = true) : c ≠ ',' := by
  intro he
  subst he
  exact absurd h (by decide)

theorem isDigit_ne_newline {c : Char} (h : c.isDigit = true) : c ≠ '\n' := by
  intro he
  subst he
  exact absurd h (by decide)

theorem isDigit_ne_minus {c : Char} (h : c.isDigit = true) : c ≠ '-' := by
  intro he
  subst he
  exact absurd h (by decide)

theorem charsToRatPos_spec (a : ℕ) :
    charsToRatPos (natToChars (a / 100) ++ '.' :: fracChars (a % 100))
      = some ((a : ℚ) / 100) := by
  have hdot1 : '.' ∉ natToChars (a / 100) := fun hm =>
    isDigit_ne_dot (natToChars_all_digit _ '.' hm) rfl
  have hdot2 : '.' ∉ fracChars (a % 100) := fun hm =>
    isDigit_ne_dot (fracChars_all_digit _ (Nat.mod_lt a (by norm_num)) '.' hm) rfl
  have hs : sepSplit '.' (natToChars (a / 100) ++ '.' :: fracChars (a % 100))
      = [natToChars (a / 100), fracChars (a % 100)] := by
    rw [sepSplit_append '.' _ _ hdot1, sepSplit_no_sep '.' _ hdot2]
  unfold charsToRatPos
  rw [hs]
  show (if natToChars (a / 100) ≠ [] ∧ fracChars (a % 100) ≠ []
      ∧ (natToChars (a / 100)).all Char.isDigit = true
      ∧ (fracChars (a % 100)).all Char.isDigit = true then
      some ((digitsToNat (natToChars (a / 100)) : ℚ)
        + (digitsToNat (fracChars (a % 100)) : ℚ) / (10 : ℚ) ^ (fracChars (a % 100)).length)
    else none) = some ((a : ℚ) / 100)
  rw [if_pos ⟨natToChars_ne_nil _, fracChars_ne_nil _,
    List.all_eq_true.mpr (fun c hc => natToChars_all_digit _ c hc),
    List.all_eq_true.mpr (fun c hc =>
      fracChars_all_digit _ (Nat.mod_lt a (by norm_num)) c hc)⟩]
  rw [digitsToNat_natToChars, fracChars_value _ (Nat.mod_lt a (by norm_num))]
  have hdm : (a : ℚ) = 100 * ((a / 100 : ℕ) : ℚ) + ((a % 100 : ℕ) : ℚ) := by
    exact_mod_cast (Nat.div_add_mod a 100).symm
  rw [hdm]
  ring_nf

/-- `charsToRat` agrees with `charsToRatPos` when the text does not start
with a minus sign. -/
theorem charsToRat_of_head_ne_minus (l : List Char)
    (h : ∀ c t, l = c :: t → c ≠ '-') : charsToRat l = charsToRatPos l := by
  cases l with
  | nil => rfl
  | cons c cs =>
      unfold charsToRat
      split
      · rename_i rest heq
        injection heq with h1 h2
        exact absurd h1 (h c cs rfl)
      · rfl

theorem charsToRat_ratToChars (q : ℚ) (h : isTwoDec q) :
    charsToRat (ratToChars q) = some q := by
  have hq100 : ((q * 100).num : ℚ) = q * 100 := by
    conv_rhs => rw [← Rat.num_div_den (q * 100)]
    unfold isTwoDec at h
    rw [h]
    simp
  unfold ratToChars
  by_cases hz : (q * 100).num < 0
  · rw [if_pos hz, List.singleton_append]
    have habs : (((q * 100).num.natAbs : ℕ) : ℚ) = -((q * 100).num : ℚ) := by
      rw [Int.cast_natAbs, abs_of_neg hz]
      push_cast
      ring
    show (charsToRatPos (natToChars ((q * 100).num.natAbs / 100)
      ++ '.' :: fracChars ((q * 100).num.natAbs % 100))).map (fun x => -x) = some q
    rw [charsToRatPos_spec]
    simp only [Option.map_some']
    congr 1
    rw [habs, hq100]
    ring
  · rw [if_neg hz, List.nil_append]
    have habs : (((q * 100).num.natAbs : ℕ) : ℚ) = ((q * 100).num : ℚ) := by
      rw [Int.cast_natAbs, abs_of_nonneg (not_lt.mp hz)]
    rw [charsToRat_of_head_ne_minus]
    · rw [charsToRatPos_spec, habs, hq100]
      congr 1
      ring
    · intro c t heq hc
      subst hc
      have hmem : '-' ∈ natToChars ((q * 100).num.natAbs / 100)
          ++ '.' :: fracChars ((q * 100).num.natAbs % 100) := by
        rw [heq]
        exact List.mem_cons_self _ _
      rcases List.mem_append.mp hmem with hm | hm
      · exact isDigit_ne_minus (natToChars_all_digit _ '-' hm) rfl
      · rcases List.mem_cons.mp hm with he | hm2
        · exact absurd he (by decide)
        · exact isDigit_ne_minus
            (fracChars_all_digit _ (Nat.mod_lt _ (by norm_num)) '-' hm2) rfl

/-- One exported table row: Timestamp, Mood Score, Feedback, Circadian
Window. -/
structure CsvRow where
  ts : List Char
  score : ℚ
  feedback : ℕ
  cw : List Char
  deriving DecidableEq

def rowToChars (r : CsvRow) : List Char :=
  sepJoin ',' [r.ts, ratToChars r.score, natToChars r.feedback, r.cw]

def rowOfChars (l : List Char) : Option CsvRow :=
  match sepSplit ',' l with
  | [ts, sc, fb, cw] =>
      match charsToRat sc with
      | some x =>
          if fb ≠ [] ∧ fb.all Char.isDigit then some ⟨ts, x, digitsToNat fb, cw⟩
          else none
      | none => none
  | _ => none

theorem mem_ratToChars (q : ℚ) (c : Char) (hc : c ∈ ratToChars q) :
    c.isDigit = true ∨ c = '-' ∨ c = '.' := by
  unfold ratToChars at hc
  rcases List.mem_append.mp hc with h1 | h2
  · rcases List.mem_append.mp h1 with hs | hn
    · split_ifs at hs
      · rcases List.mem_singleton.mp hs with rfl
        right
        left
        rfl
      · exact absurd hs (List.not_mem_nil c)
    · left
      exact natToChars_all_digit _ c hn
  · rcases List.mem_cons.mp h2 with rfl | hf
    · right
      right
      rfl
    · left
      exact fracChars_all_digit _ (Nat.mod_lt _ (by norm_num)) c hf

theorem ratToChars_no_comma (q : ℚ) : ',' ∉ ratToChars q := by
  intro hm
  rcases mem_ratToChars q ',' hm with h | h | h
  · exact isDigit_ne_comma h rfl
  · exact absurd h (by decide)
  · exact absurd h (by decide)

theorem ratToChars_no_newline (q : ℚ) : '\n' ∉ ratToChars q := by
  intro hm
  rcases mem_ratToChars q '\n' hm with h | h | h
  · exact isDigit_ne_newline h rfl
  · exact absurd h (by decide)
  · exact absurd h (by decide)

theorem natToChars_no_comma (n : ℕ) : ',' ∉ natToChars n := fun hm =>
  isDigit_ne_comma (natToChars_all_digit _ _ hm) rfl

theorem natToChars_no_newline (n : ℕ) : '\n' ∉ natToChars n := fun hm =>
  isDigit_ne_newline (natToChars_all_digit _ _ hm) rfl

theorem rowOfChars_rowToChars (r : CsvRow) (hsc : isTwoDec r.score)
    (hts : ',' ∉ r.ts) (hcw : ',' ∉ r.cw) :
    rowOfChars (rowToChars r) = some r := by
  have hsplit : sepSplit ',' (rowToChars r)
      = [r.ts, ratToChars r.score, natToChars r.feedback, r.cw] := by
    apply sepSplit_join
    · simp
    · intro f hf
      simp only [List.mem_cons, List.not_mem_nil, or_false] at hf
      rcases hf with rfl | rfl | rfl | rfl
      · exact hts
      · exact ratToChars_no_comma _
      · exact natToChars_no_comma _
      · exact hcw
  unfold rowOfChars
  rw [hsplit]
  show (match charsToRat (ratToChars r.score) with
    | some x =>
        if natToChars r.feedback ≠ [] ∧ (natToChars r.feedback).all Char.isDigit = true
        then some (⟨r.ts, x, digitsToNat (natToChars r.feedback), r.cw⟩ : CsvRow)
        else none
    | none => none) = some r
  rw [charsToRat_ratToChars r.score hsc]
  show (if natToChars r.feedback ≠ [] ∧ (natToChars r.feedback).all Char.isDigit = true
      then some (⟨r.ts, r.score, digitsToNat (natToChars r.feedback), r.cw⟩ : CsvRow)
      else none) = some r
  rw [if_pos ⟨natToChars_ne_nil _,
    List.all_eq_true.mpr (fun c hc => natToChars_all_digit _ c hc)⟩]
  rw [digitsToNat_natToChars]

theorem rowToChars_no_newline (r : CsvRow) (hts : '\n' ∉ r.ts) (hcw : '\n' ∉ r.cw) :
    '\n' ∉ rowToChars r := by
  intro hm
  simp only [rowToChars, sepJoin] at hm
  rcases List.mem_append.mp hm with h | h
  · exact hts h
  · rcases List.mem_cons.mp h with he | h
    · exact absurd he (by decide)
    · rcases List.mem_append.mp h with h | h
      · exact ratToChars_no_newline _ h
      · rcases List.mem_cons.mp h with he | h
        · exact absurd he (by decide)
        · rcases List.mem_append.mp h with h | h
          · exact natToChars_no_newline _ h
          · rcases List.mem_cons.mp h with he | h
            · exact absurd he (by decide)
            · exact hcw h

/-- The header row written by `to_csv`. -/
def headerChars : List Char := "Timestamp,Mood Score,Feedback,Circadian Window".data

/-- Build the exported rows: one per ledger entry, in order, with the
session circadian window constant across all rows. -/
def export_rows : List (List Char) → List ℚ → List ℕ → List Char → List CsvRow
  | t :: tss, s :: ss, f :: fs, cw => ⟨t, s, f, cw⟩ :: export_rows tss ss fs cw
  | _, _, _, _ => []

/-- `df_log.to_csv(..., index=False)`: a header line then one line per row. -/
def to_csv (rows : List CsvRow) : List Char :=
  sepJoin '\n' (headerChars :: rows.map rowToChars)

def parseRows : List (List Char) → Option (List CsvRow)
  | [] => some []
  | ln :: rest =>
      match rowOfChars ln, parseRows rest with
      | some r, some rs => some (r :: rs)
      | _, _ => none

/-- Re-parse an exported table: split lines, drop the header, parse rows. -/
def parse_csv (l : List Char) : Option (List CsvRow) :=
  match sepSplit '\n' l with
  | [] => none
  | _ :: lines => parseRows lines

theorem parseRows_map (rows : List CsvRow)
    (h : ∀ r ∈ rows, rowOfChars (rowToChars r) = some r) :
    parseRows (rows.map rowToChars) = some rows := by
  induction rows with
  | nil => rfl
  | cons r rs ih =>
      simp only [List.map_cons, parseRows]
      rw [h r (List.mem_cons_self r rs), ih (fun x hx => h x (List.mem_cons_of_mem r hx))]

theorem export_rows_fields (ts : List (List Char)) (scores : List ℚ)
    (ratings : List ℕ) (cw : List Char)
    (hts : ts.length = scores.length) (hr : ratings.length = scores.length) :
    (export_rows ts scores ratings cw).map CsvRow.score = scores
    ∧ (export_rows ts scores ratings cw).map CsvRow.feedback = ratings
    ∧ (export_rows ts scores ratings cw).map CsvRow.ts = ts
    ∧ ∀ r ∈ export_rows ts scores ratings cw, r.cw = cw := by
  induction scores generalizing ts ratings with
  | nil =>
      cases ts with
      | nil =>
          cases ratings with
          | nil => exact ⟨rfl, rfl, rfl, by simp [export_rows]⟩
          | cons _ _ => simp at hr
      | cons _ _ => simp at hts
  | cons s ss ih =>
      cases ts with
      | nil => simp at hts
      | cons t tss =>
          cases ratings with
          | nil => simp at hr
          | cons f fs =>
              have h1 : tss.length = ss.length := by simpa using hts
              have h2 : fs.length = ss.length := by simpa using hr
              obtain ⟨e1, e2, e3, e4⟩ := ih tss fs h1 h2
              refine ⟨by simp [export_rows, e1], by simp [export_rows, e2],
                by simp [export_rows, e3], ?_⟩
              intro r hrm
              simp only [export_rows, List.mem_cons] at hrm
              rcases hrm with rfl | hm
              · rfl
              · exact e4 r hm

/-! ## Claim C8 -/

/-- C8: for every mood ledger, the export produces one row per recorded
entry with the circadian-window column constant across all rows (the current
session value), and re-parsing the exported table yields a row count equal
to the ledger length and score/rating values identical to the recorded ones
in their original order.  The timestamps are the synthetic `date_range`
strings and the hypotheses record the modelling scope: recorded scores are
two-decimal values (as `round(..., 2)` guarantees), and timestamp/window
text is free of the separators (pandas would otherwise quote them, which
this model does not implement). -/
theorem claim_C8_export (ts : List (List Char)) (scores : List ℚ)
    (ratings : List ℕ) (cw : List Char)
    (hts : ts.length = scores.length) (hr : ratings.length = scores.length)
    (h2d : ∀ s ∈ scores, isTwoDec s)
    (hcw : ',' ∉ cw ∧ '\n' ∉ cw)
    (htsf : ∀ t ∈ ts, ',' ∉ t ∧ '\n' ∉ t) :
    (export_rows ts scores ratings cw).length = scores.length
    ∧ (∀ r ∈ export_rows ts scores ratings cw, r.cw = cw)
    ∧ (export_rows ts scores ratings cw).map CsvRow.score = scores
    ∧ (export_rows ts scores ratings cw).map CsvRow.feedback = ratings
    ∧ parse_csv (to_csv (export_rows ts scores ratings cw))
        = some (export_rows ts scores ratings cw) := by
  obtain ⟨e1, e2, e3, e4⟩ := export_rows_fields ts scores ratings cw hts hr
  have hlen : (export_rows ts scores ratings cw).length = scores.length := by
    conv_rhs => rw [← e1]
    rw [List.length_map]
  refine ⟨hlen, e4, e1, e2, ?_⟩
  have hrowmem : ∀ r ∈ export_rows ts scores ratings cw,
      isTwoDec r.score ∧ ',' ∉ r.ts ∧ '\n' ∉ r.ts ∧ ',' ∉ r.cw ∧ '\n' ∉ r.cw := by
    intro r hm
    have hscore : r.score ∈ scores := by
      rw [← e1]
      exact List.mem_map_of_mem _ hm
    have htsr : r.ts ∈ ts := by
      rw [← e3]
      exact List.mem_map_of_mem _ hm
    exact ⟨h2d _ hscore, (htsf _ htsr).1, (htsf _ htsr).2,
      (e4 r hm) ▸ hcw.1, (e4 r hm) ▸ hcw.2⟩
  unfold to_csv parse_csv
  rw [sepSplit_join '\n'
    (headerChars :: (export_rows ts scores ratings cw).map rowToChars)
    (by simp)
    (by
      intro f hf
      rcases List.mem_cons.mp hf with rfl | hm
      · decide
      · obtain ⟨r, hrm, rfl⟩ := List.mem_map.mp hm
        exact rowToChars_no_newline r ((hrowmem r hrm).2.2.1)
          ((hrowmem r hrm).2.2.2.2))]
  show parseRows ((export_rows ts scores ratings cw).map rowToChars)
      = some (export_rows ts scores ratings cw)
  apply parseRows_map
  intro r hm
  exact rowOfChars_rowToChars r ((hrowmem r hm).1) ((hrowmem r hm).2.1)
    ((hrowmem r hm).2.2.2.1)

/-- Witness for C8 with a one-entry ledger: score 0.5, rating 3, window "m",
timestamp "t". -/
theorem claim_C8_export_witness :
    (export_rows [['t']] [1/2] [3] ['m']).length = [(1 : ℚ)/2].length
    ∧ (export_rows [['t']] [1/2] [3] ['m']).map CsvRow.score = [(1 : ℚ)/2] := by
  have h2d : ∀ s ∈ [(1 : ℚ)/2], isTwoDec s := by
    intro s hs
    rcases List.mem_singleton.mp hs with rfl
    show ((1 : ℚ)/2 * 100).den = 1
    norm_num
  have h := claim_C8_export [['t']] [1/2] [3] ['m'] rfl rfl h2d
    (by constructor <;> decide)
    (by
      intro t ht
      rcases List.mem_singleton.mp ht with rfl
      constructor <;> decide)
  exact ⟨h.1, h.2.2.1⟩

end Cogniscent
